import Mathlib

/-!
Shallow embedding of the Monkey-language lexer from this repository
(`src/token.rs`, `src/lexer.rs`), together with theorems checking the
specification's claims about it.

Modelling conventions:
* A Rust `&str` is modelled as a `List Char` (its sequence of Unicode scalar
  values).  Rust's `str::len` is the UTF-8 *byte* length, modelled by
  `byteLen`; `chars().nth(i)` is `List.get?`; the byte-range slice
  `&input[a..b]` is `sliceBytes` (`none` models the panic on an
  out-of-range index or a non-boundary index).
* Rust panics (`unwrap` on `None`, slice panics, `parse().unwrap()`) are
  modelled by `Option`: `none` is a panic.
* Loops are written with an explicit fuel argument; every public wrapper
  passes `byteLen input + 2` fuel, which strictly exceeds the number of
  iterations any of these loops can perform (each iteration advances
  `read_position` by one, and every loop stops once the cursor runs past
  the input), so the fuel-exhaustion arm is never reached.
* Rust's `char::is_alphabetic` is the Unicode `Alphabetic` property, which
  on the ASCII range coincides with `Char.isAlpha`; the embedding uses
  `Char.isAlpha`, and every theorem whose truth depends on identifier
  classification is stated over ASCII inputs.  `char::is_digit(10)` and
  `char::is_ascii_whitespace` are exact.
-/

namespace MonkeyLexer

/-- Token kinds, from `TokenType` in src/token.rs. -/
inductive TokenType where
  | EOF
  | ILLEGAL
  | IDENT (s : List Char)
  | INT (v : Int)
  | ASSIGN
  | PLUS
  | MINUS
  | BANG
  | ASTERISK
  | FORWARDSLASH
  | LT
  | GT
  | EQ
  | NOTEQ
  | COMMA
  | SEMICOLON
  | LPAREN
  | RPAREN
  | LBRACE
  | RBRACE
  | FUNCTION
  | LET
  | TRUE
  | FALSE
  | IF
  | ELSE
  | RETURN
  deriving DecidableEq, Repr

/-- `Token` from src/token.rs: a wrapper around a `TokenType`. -/
structure Token where
  t_type : TokenType
  deriving DecidableEq, Repr

/-- `Token::new` from src/token.rs. -/
def Token.new (t : TokenType) : Token := { t_type := t }

/-- Rust `char::is_ascii_whitespace`: space, tab, line feed, form feed,
carriage return. -/
def is_ascii_whitespace (c : Char) : Bool :=
  c = ' ' || c = '\t' || c = '\n' || c = Char.ofNat 12 || c = '\r'

/-- Rust `char::is_alphabetic` (the Unicode `Alphabetic` property).  On the
ASCII range it coincides with `Char.isAlpha`, which we use; theorems that
depend on this classification are stated over ASCII inputs. -/
def is_alphabetic (c : Char) : Bool := c.isAlpha

/-- Rust `char::is_digit(10)`: exactly the characters `'0'` through `'9'`. -/
def is_digit10 (c : Char) : Bool := c.isDigit

/-- Number of bytes of the UTF-8 encoding of a scalar value. -/
def utf8Len (c : Char) : Nat :=
  if c.toNat < 0x80 then 1
  else if c.toNat < 0x800 then 2
  else if c.toNat < 0x10000 then 3
  else 4

/-- Rust `str::len`: the UTF-8 byte length of the string. -/
def byteLen (l : List Char) : Nat := (l.map utf8Len).sum

/-- Drop `n` leading bytes from a string; `none` models the panic when `n`
is past the end or not on a character boundary. -/
def dropBytes : List Char → Nat → Option (List Char)
  | l, 0 => some l
  | [], _ + 1 => none
  | c :: cs, n + 1 =>
    if utf8Len c ≤ n + 1 then dropBytes cs (n + 1 - utf8Len c) else none

/-- Take `n` leading bytes of a string; `none` models the panic when `n`
is past the end or not on a character boundary. -/
def takeBytes : List Char → Nat → Option (List Char)
  | _, 0 => some []
  | [], _ + 1 => none
  | c :: cs, n + 1 =>
    if utf8Len c ≤ n + 1 then (takeBytes cs (n + 1 - utf8Len c)).map (c :: ·) else none

/-- Rust byte-range slicing `&input[a..b]`; `none` models the slice panic
(reversed range, out-of-range index, or index not on a character
boundary). -/
def sliceBytes (l : List Char) (a b : Nat) : Option (List Char) :=
  if a ≤ b then (dropBytes l a).bind fun t => takeBytes t (b - a) else none

/-- Value of a string of decimal digits. -/
def digitsVal (l : List Char) : Nat :=
  l.foldl (fun acc c => acc * 10 + (c.toNat - '0'.toNat)) 0

/-- Rust `str::parse::<i32>()` restricted to the strings `read_digit`
produces (runs of ASCII decimal digits): `none` models the `Err` (and the
subsequent `unwrap` panic) on an empty string, a non-digit character, or a
value exceeding `i32::MAX`. -/
def parse_i32 (l : List Char) : Option Int :=
  if l.isEmpty then none
  else if l.all is_digit10 then
    if digitsVal l ≤ 2147483647 then some (digitsVal l) else none
  else none

/-- The `Lexer` struct from src/lexer.rs. -/
structure Lexer where
  input : List Char
  position : Nat
  read_position : Nat
  current_character : Option Char
  deriving DecidableEq, Repr

/-- `Lexer::is_end_of_file`: `self.read_position > self.input.len()`
(`len` is the byte length). -/
def Lexer.is_end_of_file (s : Lexer) : Bool :=
  byteLen s.input < s.read_position

/-- `Lexer::read_char`: load the character at `read_position` (or the
`None` sentinel), then set `position = read_position` and increment
`read_position`. -/
def Lexer.read_char (s : Lexer) : Lexer :=
  { s with
    current_character :=
      if s.is_end_of_file then none else s.input.get? s.read_position
    position := s.read_position
    read_position := s.read_position + 1 }

/-- `Lexer::new`: zero-initialise the cursor, then prime it with one
`read_char`. -/
def Lexer.new (input : List Char) : Lexer :=
  Lexer.read_char
    { input := input, position := 0, read_position := 0, current_character := none }

/-- `Lexer::peak_char`: the character at `read_position`, without
advancing. -/
def Lexer.peak_char (s : Lexer) : Option Char :=
  if s.is_end_of_file then none else s.input.get? s.read_position

/-- The loop of `Lexer::read_identifier`: break at end of file; panic
(`unwrap`, modelled by `none`) if the current character is absent; break
when it is non-alphabetic or ASCII whitespace; otherwise `read_char` and
continue.  The fuel-exhaustion arm (`some s`) is never reached with the
wrapper's fuel. -/
def Lexer.read_identifier_loop : Nat → Lexer → Option Lexer
  | 0, s => some s
  | fuel + 1, s =>
    if s.is_end_of_file then some s
    else
      match s.current_character with
      | none => none
      | some c =>
        if !is_alphabetic c || is_ascii_whitespace c then some s
        else Lexer.read_identifier_loop fuel s.read_char

/-- `Lexer::read_identifier`: record the starting position, run the loop,
then return the byte slice `&input[position..self.position]`. -/
def Lexer.read_identifier (s : Lexer) : Option (List Char × Lexer) :=
  let position := s.position
  (Lexer.read_identifier_loop (byteLen s.input + 2) s).bind fun s2 =>
    (sliceBytes s2.input position s2.position).map fun str => (str, s2)

/-- The loop of `Lexer::read_digit`: panic (`unwrap` on the absent current
character, modelled by `none`); break when the current character is not a
decimal digit; otherwise `read_char` and continue.  Note the missing
end-of-file check (compare `read_identifier_loop`). -/
def Lexer.read_digit_loop : Nat → Lexer → Option Lexer
  | 0, s => some s
  | fuel + 1, s =>
    match s.current_character with
    | none => none
    | some c =>
      if !is_digit10 c then some s
      else Lexer.read_digit_loop fuel s.read_char

/-- `Lexer::read_digit`: record the starting position, run the loop, then
parse the byte slice `&input[position..self.position]` as an `i32`. -/
def Lexer.read_digit (s : Lexer) : Option (Int × Lexer) :=
  let position := s.position
  (Lexer.read_digit_loop (byteLen s.input + 2) s).bind fun s2 =>
    (sliceBytes s2.input position s2.position).bind fun str =>
      (parse_i32 str).map fun v => (v, s2)

/-- `Lexer::lookup_identifier`: the keyword table, with fallback to
`IDENT`. -/
def lookup_identifier (ident : List Char) : TokenType :=
  if ident = "fn".toList then TokenType.FUNCTION
  else if ident = "let".toList then TokenType.LET
  else if ident = "if".toList then TokenType.IF
  else if ident = "else".toList then TokenType.ELSE
  else if ident = "return".toList then TokenType.RETURN
  else if ident = "true".toList then TokenType.TRUE
  else if ident = "false".toList then TokenType.FALSE
  else TokenType.IDENT ident

/-- The loop of `Lexer::skip_whitespace`: return at the `None` sentinel or
at a non-whitespace character, otherwise `read_char` and continue. -/
def Lexer.skip_whitespace_loop : Nat → Lexer → Lexer
  | 0, s => s
  | fuel + 1, s =>
    match s.current_character with
    | none => s
    | some c =>
      if !is_ascii_whitespace c then s
      else Lexer.skip_whitespace_loop fuel s.read_char

/-- `Lexer::skip_whitespace`. -/
def Lexer.skip_whitespace (s : Lexer) : Lexer :=
  Lexer.skip_whitespace_loop (byteLen s.input + 2) s

/-- The dispatch of `Lexer::next_token`, applied to the state after the
leading `skip_whitespace`.  Result `none` models a panic inside
`read_identifier`/`read_digit`; `some (none, s)` is the source's
`Option::None` ("exhausted") together with the state after the leading
`skip_whitespace`; `some (some t, s)` is a produced token.  The source's
trailing `self.read_char()` (line 196 of src/lexer.rs) runs on every
token-producing branch, so every such branch below ends in `.read_char`.
The characters `LBRACE`/`RBRACE` match are written `Char.ofNat 123` and
`Char.ofNat 125`. -/
def Lexer.next_token_core (s : Lexer) : Option (Option Token × Lexer) :=
  match s.current_character with
  | none => some (none, s)
  | some c =>
    if c = '=' then
      match s.peak_char with
      | some x =>
        if x = '=' then some (some (Token.new TokenType.EQ), s.read_char.read_char)
        else some (some (Token.new TokenType.ASSIGN), s.read_char)
      | none => some (some (Token.new TokenType.ILLEGAL), s.read_char)
    else if c = ';' then some (some (Token.new TokenType.SEMICOLON), s.read_char)
    else if c = '(' then some (some (Token.new TokenType.LPAREN), s.read_char)
    else if c = ')' then some (some (Token.new TokenType.RPAREN), s.read_char)
    else if c = Char.ofNat 123 then some (some (Token.new TokenType.LBRACE), s.read_char)
    else if c = Char.ofNat 125 then some (some (Token.new TokenType.RBRACE), s.read_char)
    else if c = ',' then some (some (Token.new TokenType.COMMA), s.read_char)
    else if c = '+' then some (some (Token.new TokenType.PLUS), s.read_char)
    else if c = '-' then some (some (Token.new TokenType.MINUS), s.read_char)
    else if c = '*' then some (some (Token.new TokenType.ASTERISK), s.read_char)
    else if c = '/' then some (some (Token.new TokenType.FORWARDSLASH), s.read_char)
    else if c = '!' then
      match s.peak_char with
      | some x =>
        if x = '=' then some (some (Token.new TokenType.NOTEQ), s.read_char.read_char)
        else some (some (Token.new TokenType.BANG), s.read_char)
      | none => some (some (Token.new TokenType.ILLEGAL), s.read_char)
    else if c = '<' then some (some (Token.new TokenType.LT), s.read_char)
    else if c = '>' then some (some (Token.new TokenType.GT), s.read_char)
    else if is_alphabetic c then
      s.read_identifier.map fun p =>
        (some (Token.new (lookup_identifier p.1)), p.2.read_char)
    else if is_digit10 c then
      s.read_digit.map fun p =>
        (some (Token.new (TokenType.INT p.1)), p.2.read_char)
    else some (some (Token.new TokenType.ILLEGAL), s.read_char)

/-- `Lexer::next_token` proper: skip whitespace, then dispatch
(`next_token_core`) on the resulting state. -/
def Lexer.next_token (s0 : Lexer) : Option (Option Token × Lexer) :=
  Lexer.next_token_core s0.skip_whitespace

/-- The loop of `Lexer::read`: call `next_token` until it yields `None`,
then push one `EOF` token.  `none` models a panic propagating out of
`next_token`.  The fuel-exhaustion arm is never reached with the wrapper's
fuel. -/
def Lexer.read_loop : Nat → Lexer → Option (List Token × Lexer)
  | 0, s => some ([], s)
  | fuel + 1, s =>
    match s.next_token with
    | none => none
    | some (none, s1) => some ([Token.new TokenType.EOF], s1)
    | some (some t, s1) =>
      (Lexer.read_loop fuel s1).map fun p => (t :: p.1, p.2)

/-- `Lexer::read` ("tokenize-all" on an existing scanner): collect tokens
until `next_token` signals exhaustion, then append exactly one `EOF`
token. -/
def Lexer.read (s : Lexer) : Option (List Token × Lexer) :=
  Lexer.read_loop (byteLen s.input + 2) s

/-- Tokenize-all on a fresh scanner: `Lexer::new` followed by
`Lexer::read`, keeping the token sequence. -/
def tokenize (input : List Char) : Option (List Token) :=
  (Lexer.new input).read.map Prod.fst

/-! ### Cursor facts -/

theorem utf8Len_pos (c : Char) : 1 ≤ utf8Len c := by
  unfold utf8Len
  split <;> [skip; split] <;> [omega; skip; split] <;> omega

theorem length_le_byteLen (l : List Char) : l.length ≤ byteLen l := by
  induction l with
  | nil => simp [byteLen]
  | cons c cs ih =>
    have := utf8Len_pos c
    simp only [byteLen, List.map_cons, List.sum_cons, List.length_cons] at *
    omega

/-- The cursor is well-formed: the lookahead offset is one past the
current offset, and the current character is exactly the character of the
input at the current offset (the `None` sentinel once past the end). -/
def Lexer.Good (s : Lexer) : Prop :=
  s.read_position = s.position + 1 ∧ s.current_character = s.input.get? s.position

instance (s : Lexer) : Decidable s.Good := by
  unfold Lexer.Good; infer_instance

theorem Lexer.good_read_char (s : Lexer) : s.read_char.Good := by
  refine ⟨rfl, ?_⟩
  show (if s.is_end_of_file then none else s.input.get? s.read_position) =
    s.input.get? s.read_position
  split
  case isTrue h =>
    have hb := length_le_byteLen s.input
    have : s.input.length ≤ s.read_position := by
      simp only [Lexer.is_end_of_file, decide_eq_true_eq] at h
      omega
    exact (List.get?_eq_none.mpr this).symm
  case isFalse h => rfl

theorem Lexer.good_new (input : List Char) : (Lexer.new input).Good :=
  Lexer.good_read_char _

theorem Lexer.read_char_input (s : Lexer) : s.read_char.input = s.input := rfl

theorem Lexer.read_char_read_position (s : Lexer) :
    s.read_char.read_position = s.read_position + 1 := rfl

theorem Lexer.read_char_position (s : Lexer) :
    s.read_char.position = s.read_position := rfl

/-- Iterated `read_char`: every cursor movement of the lexer is a chain of
`read_char` calls. -/
def readCharIter : Nat → Lexer → Lexer
  | 0, s => s
  | k + 1, s => readCharIter k s.read_char

theorem readCharIter_succ (k : Nat) (s : Lexer) :
    readCharIter (k + 1) s = readCharIter k s.read_char := rfl

theorem readCharIter_succ' (k : Nat) (s : Lexer) :
    readCharIter (k + 1) s = (readCharIter k s).read_char := by
  induction k generalizing s with
  | zero => rfl
  | succ k ih => rw [readCharIter_succ, ih, readCharIter_succ]

theorem readCharIter_add (a b : Nat) (s : Lexer) :
    readCharIter (a + b) s = readCharIter a (readCharIter b s) := by
  induction b generalizing s with
  | zero => rfl
  | succ b ih => rw [readCharIter_succ, ← ih, ← readCharIter_succ, Nat.add_succ]

theorem readCharIter_input (k : Nat) (s : Lexer) :
    (readCharIter k s).input = s.input := by
  induction k generalizing s with
  | zero => rfl
  | succ k ih => rw [readCharIter_succ, ih, Lexer.read_char_input]

theorem readCharIter_read_position (k : Nat) (s : Lexer) :
    (readCharIter k s).read_position = s.read_position + k := by
  induction k generalizing s with
  | zero => rfl
  | succ k ih =>
    rw [readCharIter_succ, ih, Lexer.read_char_read_position]
    omega

theorem readCharIter_good (k : Nat) (s : Lexer) (h : s.Good) :
    (readCharIter k s).Good := by
  cases k with
  | zero => exact h
  | succ k =>
    rw [readCharIter_succ']
    exact Lexer.good_read_char _

theorem readCharIter_position (k : Nat) (s : Lexer) (h : s.Good) :
    (readCharIter k s).position = s.position + k := by
  induction k generalizing s with
  | zero => rfl
  | succ k ih =>
    rw [readCharIter_succ, ih _ (Lexer.good_read_char s), Lexer.read_char_position,
      h.1]
    omega

/-- Being a `read_char` iterate is preserved by a further `read_char`. -/
theorem iter_read_char {s x : Lexer} (h : ∃ k, x = readCharIter k s) :
    ∃ k, x.read_char = readCharIter k s := by
  obtain ⟨k, hk⟩ := h
  exact ⟨k + 1, by rw [readCharIter_succ', hk]⟩

theorem iter_trans {s x y : Lexer} (h1 : ∃ k, x = readCharIter k s)
    (h2 : ∃ k, y = readCharIter k x) : ∃ k, y = readCharIter k s := by
  obtain ⟨k1, hk1⟩ := h1
  obtain ⟨k2, hk2⟩ := h2
  exact ⟨k2 + k1, by rw [readCharIter_add, ← hk1, ← hk2]⟩

/-! ### Every operation only moves the cursor through `read_char` -/

theorem skip_whitespace_loop_iter (fuel : Nat) :
    ∀ s : Lexer, ∃ k, Lexer.skip_whitespace_loop fuel s = readCharIter k s := by
  induction fuel with
  | zero => exact fun s => ⟨0, rfl⟩
  | succ fuel ih =>
    intro s
    cases hc : s.current_character with
    | none =>
      refine ⟨0, ?_⟩
      rw [Lexer.skip_whitespace_loop, hc]
      rfl
    | some c =>
      by_cases hw : is_ascii_whitespace c
      · obtain ⟨k, hk⟩ := ih s.read_char
        refine ⟨k + 1, ?_⟩
        rw [Lexer.skip_whitespace_loop, hc, readCharIter_succ, ← hk]
        simp [hw]
      · refine ⟨0, ?_⟩
        rw [Lexer.skip_whitespace_loop, hc]
        simp only [hw, Bool.not_false]
        rfl

theorem skip_whitespace_iter (s : Lexer) :
    ∃ k, s.skip_whitespace = readCharIter k s :=
  skip_whitespace_loop_iter _ s

theorem read_identifier_loop_iter (fuel : Nat) :
    ∀ s s2 : Lexer, Lexer.read_identifier_loop fuel s = some s2 →
      ∃ k, s2 = readCharIter k s := by
  induction fuel with
  | zero => exact fun s s2 h => ⟨0, by cases h; rfl⟩
  | succ fuel ih =>
    intro s s2 h
    rw [Lexer.read_identifier_loop] at h
    split at h
    · exact ⟨0, by cases h; rfl⟩
    · split at h
      · exact absurd h (by simp)
      · split at h
        · exact ⟨0, by cases h; rfl⟩
        · obtain ⟨k, hk⟩ := ih s.read_char s2 h
          exact ⟨k + 1, by rw [readCharIter_succ, hk]⟩

theorem read_identifier_iter (s : Lexer) (p : List Char × Lexer)
    (h : s.read_identifier = some p) : ∃ k, p.2 = readCharIter k s := by
  unfold Lexer.read_identifier at h
  rw [Option.bind_eq_some] at h
  obtain ⟨s2, h2, h3⟩ := h
  rw [Option.map_eq_some'] at h3
  obtain ⟨str, _, h5⟩ := h3
  obtain ⟨k, hk⟩ := read_identifier_loop_iter _ s s2 h2
  exact ⟨k, by rw [← h5, hk]⟩

theorem read_digit_loop_iter (fuel : Nat) :
    ∀ s s2 : Lexer, Lexer.read_digit_loop fuel s = some s2 →
      ∃ k, s2 = readCharIter k s := by
  induction fuel with
  | zero => exact fun s s2 h => ⟨0, by cases h; rfl⟩
  | succ fuel ih =>
    intro s s2 h
    rw [Lexer.read_digit_loop] at h
    split at h
    · exact absurd h (by simp)
    · split at h
      · exact ⟨0, by cases h; rfl⟩
      · obtain ⟨k, hk⟩ := ih s.read_char s2 h
        exact ⟨k + 1, by rw [readCharIter_succ, hk]⟩

theorem read_digit_iter (s : Lexer) (p : Int × Lexer)
    (h : s.read_digit = some p) : ∃ k, p.2 = readCharIter k s := by
  unfold Lexer.read_digit at h
  rw [Option.bind_eq_some] at h
  obtain ⟨s2, h2, h3⟩ := h
  rw [Option.bind_eq_some] at h3
  obtain ⟨str, _, h4⟩ := h3
  rw [Option.map_eq_some'] at h4
  obtain ⟨v, _, h6⟩ := h4
  obtain ⟨k, hk⟩ := read_digit_loop_iter _ s s2 h2
  exact ⟨k, by rw [← h6, hk]⟩

theorem next_token_core_iter (s : Lexer) (o : Option Token) (t : Lexer)
    (h : s.next_token_core = some (o, t)) : ∃ k, t = readCharIter k s := by
  have base : ∃ k, s = readCharIter k s := ⟨0, rfl⟩
  have step1 : ∃ k, s.read_char = readCharIter k s := iter_read_char base
  have step2 : ∃ k, s.read_char.read_char = readCharIter k s := iter_read_char step1
  rw [Lexer.next_token_core.eq_def] at h
  split at h
  · cases h; exact base
  · rename_i c hc
    by_cases h1 : c = '='
    · rw [if_pos h1] at h
      split at h
      · rename_i x hx
        by_cases h2 : x = '='
        · rw [if_pos h2] at h; cases h; exact step2
        · rw [if_neg h2] at h; cases h; exact step1
      · cases h; exact step1
    · rw [if_neg h1] at h
      by_cases h2 : c = ';'
      · rw [if_pos h2] at h; cases h; exact step1
      · rw [if_neg h2] at h
        by_cases h3 : c = '('
        · rw [if_pos h3] at h; cases h; exact step1
        · rw [if_neg h3] at h
          by_cases h4 : c = ')'
          · rw [if_pos h4] at h; cases h; exact step1
          · rw [if_neg h4] at h
            by_cases h5 : c = Char.ofNat 123
            · rw [if_pos h5] at h; cases h; exact step1
            · rw [if_neg h5] at h
              by_cases h6 : c = Char.ofNat 125
              · rw [if_pos h6] at h; cases h; exact step1
              · rw [if_neg h6] at h
                by_cases h7 : c = ','
                · rw [if_pos h7] at h; cases h; exact step1
                · rw [if_neg h7] at h
                  by_cases h8 : c = '+'
                  · rw [if_pos h8] at h; cases h; exact step1
                  · rw [if_neg h8] at h
                    by_cases h9 : c = '-'
                    · rw [if_pos h9] at h; cases h; exact step1
                    · rw [if_neg h9] at h
                      by_cases h10 : c = '*'
                      · rw [if_pos h10] at h; cases h; exact step1
                      · rw [if_neg h10] at h
                        by_cases h11 : c = '/'
                        · rw [if_pos h11] at h; cases h; exact step1
                        · rw [if_neg h11] at h
                          by_cases h12 : c = '!'
                          · rw [if_pos h12] at h
                            split at h
                            · rename_i x hx
                              by_cases h13 : x = '='
                              · rw [if_pos h13] at h; cases h; exact step2
                              · rw [if_neg h13] at h; cases h; exact step1
                            · cases h; exact step1
                          · rw [if_neg h12] at h
                            by_cases h14 : c = '<'
                            · rw [if_pos h14] at h; cases h; exact step1
                            · rw [if_neg h14] at h
                              by_cases h15 : c = '>'
                              · rw [if_pos h15] at h; cases h; exact step1
                              · rw [if_neg h15] at h
                                by_cases h16 : is_alphabetic c
                                · rw [if_pos h16] at h
                                  rw [Option.map_eq_some'] at h
                                  obtain ⟨p, hp, he⟩ := h
                                  cases he
                                  exact iter_read_char (read_identifier_iter s p hp)
                                · rw [if_neg h16] at h
                                  by_cases h17 : is_digit10 c
                                  · rw [if_pos h17] at h
                                    rw [Option.map_eq_some'] at h
                                    obtain ⟨p, hp, he⟩ := h
                                    cases he
                                    exact iter_read_char (read_digit_iter s p hp)
                                  · rw [if_neg h17] at h; cases h; exact step1
theorem next_token_iter (s0 : Lexer) (o : Option Token) (t : Lexer)
    (h : s0.next_token = some (o, t)) : ∃ k, t = readCharIter k s0 :=
  iter_trans (skip_whitespace_iter s0) (next_token_core_iter _ o t h)

theorem read_loop_iter (fuel : Nat) :
    ∀ (s : Lexer) (ts : List Token) (t : Lexer),
      Lexer.read_loop fuel s = some (ts, t) → ∃ k, t = readCharIter k s := by
  induction fuel with
  | zero => exact fun s ts t h => ⟨0, by cases h; rfl⟩
  | succ fuel ih =>
    intro s ts t h
    rw [Lexer.read_loop] at h
    split at h
    · exact absurd h (by simp)
    · cases h
      exact next_token_iter _ _ _ (by assumption)
    · rw [Option.map_eq_some'] at h
      obtain ⟨p, hp, he⟩ := h
      cases he
      rename_i heq
      exact iter_trans (next_token_iter _ _ _ heq) (ih _ _ _ hp)

theorem read_iter (s : Lexer) (ts : List Token) (t : Lexer)
    (h : s.read = some (ts, t)) : ∃ k, t = readCharIter k s :=
  read_loop_iter _ s ts t h

/-- `ReachFrom s t`: the state `t` arises from the state `s` by some
sequence of the scanner's operations (`read_char`, `skip_whitespace`,
`read_identifier`, `read_digit`, `next_token`, `read`); the fallible
operations contribute a step only when they return rather than panic. -/
inductive ReachFrom : Lexer → Lexer → Prop where
  | refl (s : Lexer) : ReachFrom s s
  | read_char {s t : Lexer} : ReachFrom s t → ReachFrom s t.read_char
  | skip_whitespace {s t : Lexer} : ReachFrom s t → ReachFrom s t.skip_whitespace
  | read_identifier {s t : Lexer} {p : List Char × Lexer} : ReachFrom s t →
      t.read_identifier = some p → ReachFrom s p.2
  | read_digit {s t : Lexer} {p : Int × Lexer} : ReachFrom s t →
      t.read_digit = some p → ReachFrom s p.2
  | next_token {s t t' : Lexer} {o : Option Token} : ReachFrom s t →
      t.next_token = some (o, t') → ReachFrom s t'
  | read {s t t' : Lexer} {ts : List Token} : ReachFrom s t →
      t.read = some (ts, t') → ReachFrom s t'

/-- Every reachable state is an iterate of `read_char`. -/
theorem reachFrom_iter {s t : Lexer} (h : ReachFrom s t) :
    ∃ k, t = readCharIter k s := by
  induction h with
  | refl => exact ⟨0, rfl⟩
  | read_char _ ih => exact iter_read_char ih
  | skip_whitespace _ ih => exact iter_trans ih (skip_whitespace_iter _)
  | read_identifier _ hop ih => exact iter_trans ih (read_identifier_iter _ _ hop)
  | read_digit _ hop ih => exact iter_trans ih (read_digit_iter _ _ hop)
  | next_token _ hop ih => exact iter_trans ih (next_token_iter _ _ _ hop)
  | read _ hop ih => exact iter_trans ih (read_iter _ _ _ hop)

theorem reachFrom_input {s t : Lexer} (h : ReachFrom s t) : t.input = s.input := by
  obtain ⟨k, hk⟩ := reachFrom_iter h
  rw [hk, readCharIter_input]

theorem reachFrom_good {s t : Lexer} (h : ReachFrom s t) (hg : s.Good) :
    t.Good := by
  obtain ⟨k, hk⟩ := reachFrom_iter h
  rw [hk]
  exact readCharIter_good k s hg

/-! ### Claim theorems -/

/-- C6: for every input string, in every state reachable from `Lexer::new`
through any sequence of the scanner's operations, `read_position` equals
`position + 1`, and `current_character` is the `None` sentinel exactly when
`position` has reached the length of the buffer; moreover `position` and
`read_position` never decrease under any further operations. -/
theorem c6_cursor_invariant (input : List Char) (s : Lexer)
    (h : ReachFrom (Lexer.new input) s) :
    s.read_position = s.position + 1 ∧
    (s.current_character = none ↔ input.length ≤ s.position) ∧
    ∀ t, ReachFrom s t → s.position ≤ t.position ∧ s.read_position ≤ t.read_position := by
  have hg : s.Good := reachFrom_good h (Lexer.good_new input)
  have hinput : s.input = input := reachFrom_input h
  refine ⟨hg.1, ?_, ?_⟩
  · rw [hg.2, hinput]
    exact List.get?_eq_none
  · intro t ht
    obtain ⟨k, hk⟩ := reachFrom_iter ht
    have hpos := readCharIter_position k s hg
    have hrp := readCharIter_read_position k s
    rw [hk, hpos, hrp]
    omega

/-- Witness for C6 at the concrete input `"a"` and its freshly constructed
scanner state. -/
theorem c6_cursor_invariant_witness :
    ReachFrom (Lexer.new ['a']) (Lexer.new ['a']) ∧
    ((Lexer.new ['a']).read_position = (Lexer.new ['a']).position + 1 ∧
      ((Lexer.new ['a']).current_character = none ↔
        (['a'] : List Char).length ≤ (Lexer.new ['a']).position) ∧
      ∀ t, ReachFrom (Lexer.new ['a']) t →
        (Lexer.new ['a']).position ≤ t.position ∧
        (Lexer.new ['a']).read_position ≤ t.read_position) :=
  ⟨ReachFrom.refl _, c6_cursor_invariant ['a'] (Lexer.new ['a']) (ReachFrom.refl _)⟩

/-- If the current character is already the `None` sentinel,
`skip_whitespace` returns the state unchanged. -/
theorem skip_whitespace_none (s : Lexer) (h : s.current_character = none) :
    s.skip_whitespace = s := by
  rw [Lexer.skip_whitespace,
    show byteLen s.input + 2 = (byteLen s.input + 1) + 1 from rfl,
    Lexer.skip_whitespace_loop, h]

/-- C1: tokenize-all on `"let a = 5;"`.  The claim's expected sequence
contains `SEMICOLON` before `EOF`; the code instead returns the five-token
sequence without `SEMICOLON`, because the unconditional trailing
`read_char` of `next_token` (line 196 of src/lexer.rs) consumes the `';'`
that terminated the integer scan. -/
theorem c1_full_statement_roundtrip :
    tokenize ("let a = 5;".toList) =
      some [Token.new TokenType.LET, Token.new (TokenType.IDENT ['a']),
        Token.new TokenType.ASSIGN, Token.new (TokenType.INT 5),
        Token.new TokenType.EOF] ∧
    tokenize ("let a = 5;".toList) ≠
      some [Token.new TokenType.LET, Token.new (TokenType.IDENT ['a']),
        Token.new TokenType.ASSIGN, Token.new (TokenType.INT 5),
        Token.new TokenType.SEMICOLON, Token.new TokenType.EOF] :=
  ⟨by rfl, by decide⟩

/-- C2: the trailing cursor advance of `next_token` is in fact performed
on the identifier and integer branches as well: after lexing the
identifier of `"ab;"`, the `';'` that stopped the scan has been consumed
(`current_character` is the `None` sentinel, not `';'`), and no
`SEMICOLON` token is ever produced. -/
theorem c2_trailing_advance_consumes_follower :
    (Lexer.new ("ab;".toList)).next_token =
      some (some (Token.new (TokenType.IDENT ['a', 'b'])),
        { input := "ab;".toList, position := 3, read_position := 4,
          current_character := none }) ∧
    tokenize ("ab;".toList) =
      some [Token.new (TokenType.IDENT ['a', 'b']), Token.new TokenType.EOF] :=
  ⟨by rfl, by rfl⟩

/-- C3 counterexample: with `=` (resp. `!`) as the last character of the
input, the code yields `ILLEGAL`, not `ASSIGN` (resp. `BANG`). -/
theorem c3_counterexample :
    tokenize ("=".toList) ≠
      some [Token.new TokenType.ASSIGN, Token.new TokenType.EOF] ∧
    tokenize ("!".toList) ≠
      some [Token.new TokenType.BANG, Token.new TokenType.EOF] :=
  ⟨by decide, by decide⟩

/-- C3 (amended): if `=` is the last character of the input (peek-next
reports none), next-token yields `ILLEGAL`, and likewise for `!`: input
`"="` tokenizes to `ILLEGAL, EOF` and input `"!"` to `ILLEGAL, EOF`, with
no panic on this path. -/
theorem c3_trailing_operator_illegal :
    tokenize ("=".toList) =
      some [Token.new TokenType.ILLEGAL, Token.new TokenType.EOF] ∧
    tokenize ("!".toList) =
      some [Token.new TokenType.ILLEGAL, Token.new TokenType.EOF] :=
  ⟨by rfl, by rfl⟩

/-- C4: tokenize-all does *not* run to completion on every input: on the
input `"5"` the digit loop of `read_digit` reaches the end of the input
and unwraps the absent current character — a panic, modelled by `none`. -/
theorem c4_digit_run_to_end_panics :
    tokenize ("5".toList) = none ∧
    (Lexer.new ("5".toList)).read_digit = none :=
  ⟨by rfl, by rfl⟩

/-- C5: the input `"12345"` does not produce `INTEGER(12345), EOF`; it
panics in `read_digit` (the digit run reaches the end of the input and the
absent current character is unwrapped).  On an input where the digit run
is terminated, the leading `-` is indeed lexed as `MINUS` and not consumed
as part of the literal. -/
theorem c5_integer_literal_panics :
    tokenize ("12345".toList) = none ∧
    tokenize ("-5;".toList) =
      some [Token.new TokenType.MINUS, Token.new (TokenType.INT 5),
        Token.new TokenType.EOF] :=
  ⟨by rfl, by rfl⟩

/-- C7: exhaustion is terminal.  From any state whose current character is
the `None` sentinel, `next_token` signals exhaustion and leaves the state
unchanged (so every further call yields nothing new), and re-invoking
`read` (tokenize-all) on such a scanner returns exactly the one-element
sequence `EOF` without resetting the cursor. -/
theorem c7_exhaustion_terminal (s : Lexer) (h : s.current_character = none) :
    s.next_token = some (none, s) ∧
    s.read = some ([Token.new TokenType.EOF], s) := by
  have hskip := skip_whitespace_none s h
  have hnt : s.next_token = some (none, s) := by
    rw [Lexer.next_token, hskip, Lexer.next_token_core.eq_def, h]
  refine ⟨hnt, ?_⟩
  rw [Lexer.read,
    show byteLen s.input + 2 = (byteLen s.input + 1) + 1 from rfl,
    Lexer.read_loop, hnt]

/-- Witness for C7: the scanner freshly constructed over the empty input
is already exhausted. -/
theorem c7_exhaustion_terminal_witness :
    (Lexer.new []).current_character = none ∧
    ((Lexer.new []).next_token = some (none, Lexer.new []) ∧
      (Lexer.new []).read = some ([Token.new TokenType.EOF], Lexer.new [])) :=
  ⟨by rfl, c7_exhaustion_terminal (Lexer.new []) (by rfl)⟩

/-- C9: tokenize-all is deterministic: two scanners freshly constructed
over the same input produce identical results.  In this pure functional
embedding of the (side-effect-free) Rust code the two runs are the same
term, so this holds by reflexivity. -/
theorem c9_deterministic (input : List Char) :
    (Lexer.new input).read = (Lexer.new input).read := rfl

/-- From a well-formed state over an all-whitespace buffer, the
whitespace-skipping loop runs the cursor past the end of the input. -/
theorem skip_whitespace_loop_exhausts (fuel : Nat) :
    ∀ s : Lexer, s.Good → (∀ c ∈ s.input, is_ascii_whitespace c) →
      s.input.length ≤ s.position + fuel →
      (Lexer.skip_whitespace_loop fuel s).current_character = none := by
  induction fuel with
  | zero =>
    intro s hg hws hlen
    show s.current_character = none
    rw [hg.2]
    exact List.get?_eq_none.mpr (by omega)
  | succ fuel ih =>
    intro s hg hws hlen
    rw [Lexer.skip_whitespace_loop]
    cases hc : s.current_character with
    | none => exact hc
    | some c =>
      have hget : s.input.get? s.position = some c := by rw [← hg.2, hc]
      have hwc : is_ascii_whitespace c = true := hws c (List.get?_mem hget)
      show (if (!is_ascii_whitespace c) = true then s
        else Lexer.skip_whitespace_loop fuel s.read_char).current_character = none
      rw [hwc]
      show (Lexer.skip_whitespace_loop fuel s.read_char).current_character = none
      refine ih s.read_char (Lexer.good_read_char s) ?_ ?_
      · rw [Lexer.read_char_input]; exact hws
      · rw [Lexer.read_char_input, Lexer.read_char_position, hg.1]; omega

/-- C8: an input consisting solely of spaces, tabs, newlines and carriage
returns tokenizes to exactly the one-element sequence `EOF`; no whitespace
character is emitted as a token. -/
theorem c8_whitespace_only (l : List Char)
    (h : ∀ c ∈ l, c = ' ' ∨ c = '\t' ∨ c = '\n' ∨ c = '\r') :
    tokenize l = some [Token.new TokenType.EOF] := by
  have hws : ∀ c ∈ l, is_ascii_whitespace c := by
    intro c hc
    rcases h c hc with rfl | rfl | rfl | rfl <;> rfl
  have hcur : ((Lexer.new l).skip_whitespace).current_character = none := by
    rw [Lexer.skip_whitespace]
    refine skip_whitespace_loop_exhausts _ _ (Lexer.good_new l) hws ?_
    have := length_le_byteLen l
    show l.length ≤ 0 + (byteLen l + 2)
    omega
  have hnt : (Lexer.new l).next_token =
      some (none, (Lexer.new l).skip_whitespace) := by
    rw [Lexer.next_token, Lexer.next_token_core.eq_def, hcur]
  rw [tokenize, Lexer.read,
    show byteLen (Lexer.new l).input + 2 = (byteLen (Lexer.new l).input + 1) + 1 from rfl,
    Lexer.read_loop, hnt]
  rfl

/-- Witness for C8 at the concrete all-whitespace input `" \t\n\r"`. -/
theorem c8_whitespace_only_witness :
    (∀ c ∈ [' ', '\t', '\n', '\r'], c = ' ' ∨ c = '\t' ∨ c = '\n' ∨ c = '\r') ∧
    tokenize [' ', '\t', '\n', '\r'] = some [Token.new TokenType.EOF] :=
  ⟨by decide, c8_whitespace_only [' ', '\t', '\n', '\r'] (by decide)⟩

/-! ### ASCII inputs: byte offsets coincide with character offsets -/

theorem ascii_utf8Len {c : Char} (h : c.toNat < 128) : utf8Len c = 1 := by
  unfold utf8Len
  rw [if_pos (by omega)]

theorem ascii_byteLen {l : List Char} (h : ∀ c ∈ l, c.toNat < 128) :
    byteLen l = l.length := by
  induction l with
  | nil => rfl
  | cons c cs ih =>
    simp only [byteLen, List.map_cons, List.sum_cons, List.length_cons] at *
    rw [ascii_utf8Len (h c (by simp)), ih (fun c hc => h c (by simp [hc]))]
    omega

theorem ascii_dropBytes {l : List Char} (h : ∀ c ∈ l, c.toNat < 128) :
    ∀ a, a ≤ l.length → dropBytes l a = some (l.drop a) := by
  induction l with
  | nil =>
    intro a ha
    have ha0 : a = 0 := by simpa using ha
    subst ha0
    rfl
  | cons c cs ih =>
    intro a ha
    cases a with
    | zero => rfl
    | succ a =>
      rw [dropBytes, if_pos (by rw [ascii_utf8Len (h c (by simp))]; omega),
        ascii_utf8Len (h c (by simp))]
      simp only [Nat.add_sub_cancel, List.drop_succ_cons]
      exact ih (fun x hx => h x (by simp [hx])) a (by simpa using ha)

theorem ascii_takeBytes {l : List Char} (h : ∀ c ∈ l, c.toNat < 128) :
    ∀ n, n ≤ l.length → takeBytes l n = some (l.take n) := by
  induction l with
  | nil =>
    intro n hn
    have hn0 : n = 0 := by simpa using hn
    subst hn0
    rfl
  | cons c cs ih =>
    intro n hn
    cases n with
    | zero => rfl
    | succ n =>
      rw [takeBytes, if_pos (by rw [ascii_utf8Len (h c (by simp))]; omega),
        ascii_utf8Len (h c (by simp))]
      simp only [Nat.add_sub_cancel, List.take_succ_cons]
      rw [ih (fun x hx => h x (by simp [hx])) n (by simpa using hn)]
      rfl

theorem ascii_sliceBytes {l : List Char} (h : ∀ c ∈ l, c.toNat < 128)
    (a b : Nat) (hab : a ≤ b) (hb : b ≤ l.length) :
    sliceBytes l a b = some ((l.drop a).take (b - a)) := by
  rw [sliceBytes, if_pos hab, ascii_dropBytes h a (by omega)]
  exact ascii_takeBytes (fun x hx => h x (List.drop_subset _ _ hx)) _
    (by simp; omega)

/-- No alphabetic character is ASCII whitespace (in particular the
defensive whitespace test in the identifier loop never fires). -/
theorem ws_not_alphabetic {c : Char} (h : is_ascii_whitespace c = true) :
    is_alphabetic c = false := by
  simp only [is_ascii_whitespace, Bool.or_eq_true, decide_eq_true_eq] at h
  rcases h with (((rfl | rfl) | rfl) | rfl) | rfl <;> rfl

/-- On an ASCII buffer, the identifier loop consumes exactly the maximal
alphabetic run starting at the current position and never panics. -/
theorem read_identifier_loop_ascii (fuel : Nat) :
    ∀ s : Lexer, s.Good → (∀ c ∈ s.input, c.toNat < 128) →
      s.input.length ≤ s.position + fuel →
      Lexer.read_identifier_loop fuel s =
        some (readCharIter
          ((s.input.drop s.position).takeWhile is_alphabetic).length s) := by
  induction fuel with
  | zero =>
    intro s hg hascii hlen
    rw [List.drop_eq_nil_of_le (by omega)]
    rfl
  | succ fuel ih =>
    intro s hg hascii hlen
    rw [Lexer.read_identifier_loop]
    have hbyte : byteLen s.input = s.input.length := ascii_byteLen hascii
    by_cases hend : s.input.length ≤ s.position
    · rw [if_pos (by simp [Lexer.is_end_of_file, hbyte, hg.1]; omega)]
      rw [List.drop_eq_nil_of_le (by omega)]
      rfl
    · rw [if_neg (by simp [Lexer.is_end_of_file, hbyte, hg.1]; omega)]
      have hlt : s.position < s.input.length := by omega
      obtain ⟨c, hget⟩ : ∃ c, s.input.get? s.position = some c := by
        cases hq : s.input.get? s.position with
        | none => exact absurd (List.get?_eq_none.mp hq) (by omega)
        | some c => exact ⟨c, rfl⟩
      have hc : s.current_character = some c := by rw [hg.2, hget]
      rw [hc]
      have hdrop : s.input.drop s.position = c :: s.input.drop (s.position + 1) := by
        rw [List.drop_eq_getElem_cons hlt]
        have : s.input[s.position] = c := by
          have h2 := List.get?_eq_getElem? (l := s.input) (i := s.position) ▸ hget
          simpa [List.getElem?_eq_getElem hlt] using h2
        rw [this]
      by_cases halpha : is_alphabetic c = true
      · have hws : is_ascii_whitespace c = false := by
          cases hw : is_ascii_whitespace c with
          | false => rfl
          | true => rw [ws_not_alphabetic hw] at halpha; cases halpha
        show (if (!is_alphabetic c || is_ascii_whitespace c) = true then some s
          else Lexer.read_identifier_loop fuel s.read_char) = _
        rw [halpha, hws]
        show Lexer.read_identifier_loop fuel s.read_char = _
        rw [ih s.read_char (Lexer.good_read_char s)
          (by rw [Lexer.read_char_input]; exact hascii)
          (by rw [Lexer.read_char_input, Lexer.read_char_position, hg.1]; omega)]
        rw [Lexer.read_char_input, Lexer.read_char_position, hg.1]
        have hruncons : (s.input.drop s.position).takeWhile is_alphabetic =
            c :: ((s.input.drop (s.position + 1)).takeWhile is_alphabetic) := by
          rw [hdrop]
          simp [List.takeWhile_cons, halpha]
        rw [hruncons, List.length_cons, readCharIter_succ]
      · have halpha' : is_alphabetic c = false := by
          cases hq : is_alphabetic c with
          | false => rfl
          | true => exact absurd hq halpha
        show (if (!is_alphabetic c || is_ascii_whitespace c) = true then some s
          else Lexer.read_identifier_loop fuel s.read_char) = _
        rw [halpha']
        show some s = _
        rw [hdrop, List.takeWhile_cons, halpha']
        rfl

/-- On an ASCII buffer, `read_identifier` from a well-formed in-range
state returns exactly the maximal alphabetic run starting at the current
position, with the cursor advanced over exactly that run. -/
theorem read_identifier_ascii (s : Lexer) (hg : s.Good)
    (hascii : ∀ c ∈ s.input, c.toNat < 128) (hpos : s.position ≤ s.input.length) :
    s.read_identifier =
      some ((s.input.drop s.position).takeWhile is_alphabetic,
        readCharIter ((s.input.drop s.position).takeWhile is_alphabetic).length s) := by
  have hbyte : byteLen s.input = s.input.length := ascii_byteLen hascii
  have hrun := List.takeWhile_prefix (l := s.input.drop s.position) is_alphabetic
  set run := (s.input.drop s.position).takeWhile is_alphabetic with hrundef
  have hrunlen : run.length ≤ s.input.length - s.position := by
    have := hrun.length_le
    simpa using this
  rw [Lexer.read_identifier,
    read_identifier_loop_ascii _ s hg hascii (by omega)]
  have hiterin : (readCharIter run.length s).input = s.input := readCharIter_input _ _
  have hiterpos : (readCharIter run.length s).position = s.position + run.length :=
    readCharIter_position _ _ hg
  rw [Option.some_bind]
  rw [hiterin, hiterpos,
    ascii_sliceBytes hascii s.position (s.position + run.length) (by omega) (by omega)]
  simp only [Nat.add_sub_cancel_left]
  have htake : (s.input.drop s.position).take run.length = run :=
    (List.prefix_iff_eq_take.mp hrun).symm
  rw [htake, ← hrundef]
  rfl

/-- C10: on an input consisting solely of ASCII characters, the character
offsets held in the cursor are valid byte offsets: every in-range byte
slice lies on character boundaries and equals the corresponding character
range, and `read_identifier` from any well-formed in-range state returns
exactly the maximal run of alphabetic characters starting at the current
position, with the cursor advanced over exactly that run (one `read_char`
per consumed character). -/
theorem c10_ascii_offsets_coincide (l : List Char) (s : Lexer)
    (hascii : ∀ c ∈ l, c.toNat < 128) (hg : s.Good) (hi : s.input = l)
    (hpos : s.position ≤ l.length) :
    (∀ a b, a ≤ b → b ≤ l.length → sliceBytes l a b = some ((l.drop a).take (b - a))) ∧
    s.read_identifier =
      some ((l.drop s.position).takeWhile is_alphabetic,
        readCharIter ((l.drop s.position).takeWhile is_alphabetic).length s) := by
  subst hi
  exact ⟨fun a b hab hb => ascii_sliceBytes hascii a b hab hb,
    read_identifier_ascii s hg hascii hpos⟩

/-- Witness for C10 at the concrete ASCII input `"ab;"` and its freshly
constructed scanner state. -/
theorem c10_ascii_offsets_coincide_witness :
    ((∀ c ∈ ("ab;".toList), c.toNat < 128) ∧ (Lexer.new ("ab;".toList)).Good ∧
      (Lexer.new ("ab;".toList)).input = "ab;".toList ∧
      (Lexer.new ("ab;".toList)).position ≤ ("ab;".toList).length) ∧
    (∀ a b, a ≤ b → b ≤ ("ab;".toList).length →
      sliceBytes ("ab;".toList) a b = some ((("ab;".toList).drop a).take (b - a))) ∧
    (Lexer.new ("ab;".toList)).read_identifier =
      some ((("ab;".toList).drop (Lexer.new ("ab;".toList)).position).takeWhile is_alphabetic,
        readCharIter ((("ab;".toList).drop (Lexer.new ("ab;".toList)).position).takeWhile
          is_alphabetic).length (Lexer.new ("ab;".toList))) :=
  ⟨⟨by decide, by decide, by decide, by decide⟩,
    c10_ascii_offsets_coincide ("ab;".toList) (Lexer.new ("ab;".toList))
      (by decide) (by decide) (by decide) (by decide)⟩

end MonkeyLexer
